import Mathlib

/-!
Shallow embedding of the Movie_Recommendation repository's recommendation
core, together with theorems settling the frozen claims about it.

Source files embedded here:
  * src/src/utils/helpers.py         (normalize_title, get_poster_by_id)
  * src/src/utils/explainability.py  (generate_explanation, explain_recommendation)
  * src/src/models/recommender.py    (search_by_keywords, recommend_content,
                                      recommend_knn, recommend_svd, recommend_hybrid)
  * src/src/data/loader.py           (load_models)
  * src/recommend_logic.py           (the standalone recommend_hybrid with
                                      weighted positional scoring)
  * src/src/config.py                (HYBRID_WEIGHTS)

Modelling conventions:
  * Python strings are Lean `String`s; most character-level work happens on
    `List Char`.
  * Python floats are modelled as `ℚ` (exact arithmetic).
  * Python dict access `d[k]`, which raises `KeyError` when the key is
    absent, is modelled by `pyGet : Option β → String → Except PyErr β`;
    out-of-range sequence indexing is modelled by `.get?` with an
    `IndexError` on `none`.
  * NumPy / sklearn numeric kernels (cosine_similarity, the fitted
    NearestNeighbors index) are external collaborators: they are taken as
    function parameters, while every ranking / slicing / merging step that
    the repository itself performs on their output is embedded faithfully.
  * Python's `sorted` / `list.sort` are stable; a stable sort by a key is
    extensionally the sort by the (key, original position) lexicographic
    order, which is how the sorts below are written (via
    `List.insertionSort`, which is executable and structurally recursive).
  * `parse_json_field` (a tolerant JSON/py-literal parser for the catalog's
    genre/keyword columns) is abstracted by letting catalog rows carry the
    already-parsed `List String` fields; no claim under study depends on
    the parsing itself.
-/

namespace MovieRec

/-! ## Python-style character utilities -/

/-- Python's `\s` whitespace class, restricted to its ASCII members
(space, tab, newline, carriage return, vertical tab, form feed). -/
def isPySpace (c : Char) : Bool :=
  c = ' ' || c = '\t' || c = '\n' || c = '\r' || c = '\x0b' || c = '\x0c'

/-- The characters kept by the regex substitution
`re.sub(r'[^a-z0-9\s]', '', title)` in helpers.py line 14: lowercase ASCII
letters, digits, and whitespace. -/
def keepChar (c : Char) : Bool :=
  ('a' ≤ c && c ≤ 'z') || ('0' ≤ c && c ≤ '9') || isPySpace c

/-- `re.sub(r'\s+', ' ', ...)` (helpers.py line 15): every maximal run of
whitespace collapses to a single ASCII space.  The flag records whether the
previous character was part of a whitespace run. -/
def collapseAux : Bool → List Char → List Char
  | _, [] => []
  | prevSpace, c :: cs =>
    if isPySpace c then
      if prevSpace then collapseAux true cs
      else ' ' :: collapseAux true cs
    else c :: collapseAux false cs

/-- Collapse whitespace runs in a fresh string (no run in progress). -/
def collapseWs (l : List Char) : List Char := collapseAux false l

/-- Leading-whitespace strip, half of Python's `str.strip()`. -/
def lstripWs (l : List Char) : List Char := l.dropWhile isPySpace

/-- Trailing-whitespace strip, the other half of `str.strip()`. -/
def rstripWs (l : List Char) : List Char := (l.reverse.dropWhile isPySpace).reverse

/-- Python's `str.strip()` (whitespace at both ends). -/
def stripWs (l : List Char) : List Char := rstripWs (lstripWs l)

/-- `normalize_title` of helpers.py lines 8-16 on the character list of a
string: lowercase, drop characters outside `[a-z0-9\s]`, collapse
whitespace runs to one space, strip the ends. -/
def normChars (l : List Char) : List Char :=
  stripWs (collapseWs ((l.map Char.toLower).filter keepChar))

/-- `normalize_title` restricted to string input. -/
def normalize_title_str (s : String) : String := ⟨normChars s.data⟩

/-- A Python value that is either a string or something else; helpers.py's
`normalize_title` only transforms strings (`isinstance(title, str)`) and
returns any other value unchanged. -/
inductive PyVal where
  | str (s : String)
  | nonStr (tag : Nat)
deriving DecidableEq

/-- `normalize_title` of helpers.py lines 8-16 (same code in
recommend_logic.py lines 21-26): normalize strings, pass everything else
through unchanged. -/
def normalize_title : PyVal → PyVal
  | .str s => .str (normalize_title_str s)
  | .nonStr t => .nonStr t

/-! ## Data model

A catalog row of `org_dataset`.  The raw dataset columns `genres`,
`keywords` and `release_date` are consumed only through
`explainability.get_movie_features`, which parses them with
`parse_json_field` / a year prefix; rows here carry the parsed values
(`genres`, `keywords` as string lists, `year` as an optional integer,
`None` when `release_date` is missing or unparsable).  -/
structure OrgRow where
  id : Int
  title : String
  poster_url : String
  genres : List String
  keywords : List String
  year : Option Int
deriving DecidableEq, Inhabited

/-- A row of the `movies_tag` frame (columns `title`, `id`, `tag`),
positionally indexed (pandas RangeIndex, so `iterrows`/`iloc` agree on the
row position). -/
structure MovieTagRow where
  title : String
  id : Int
  tag : String
deriving DecidableEq, Inhabited

/-- `get_poster_by_id` of helpers.py lines 18-31: look the id up in
`org_dataset` and return the row's `poster_url`, or the empty string when
no row matches.  The ids are integers already, so the `int(movie_id)`
coercion of the source always succeeds in this model. -/
def get_poster_by_id (movie_id : Int) (org_dataset : List OrgRow) : String :=
  match org_dataset.find? (fun r => r.id == movie_id) with
  | some row => row.poster_url
  | none => ""

/-! ## Explanation generator (src/src/utils/explainability.py) -/

/-- The features `get_movie_features` extracts from a catalog row. -/
structure MovieFeatures where
  genres : List String
  keywords : List String
  year : Option Int
deriving DecidableEq, Inhabited

/-- `get_movie_features` (explainability.py lines 37-67), with the
JSON-field parsing abstracted into the pre-parsed row fields. -/
def get_movie_features (r : OrgRow) : MovieFeatures :=
  { genres := r.genres, keywords := r.keywords, year := r.year }

/-- Python truthiness of the optional year field: `None` and `0` are
falsy. -/
def truthyYear : Option Int → Bool
  | none => false
  | some y => y ≠ 0

/-- Python truthiness of the optional similarity score: `None` and `0.0`
are falsy. -/
def truthyScore : Option ℚ → Bool
  | none => false
  | some q => q ≠ 0

/-- A deterministic model of `list(set(xs) & set(ys))`: the elements of
`xs` that also occur in `ys`, first occurrences only.  CPython iterates a
set in hash order; no claim under study depends on which order (or which
two representatives `[:2]` picks), so insertion order is used. -/
def pyIntersect (xs ys : List String) : List String :=
  (xs.filter (fun x => ys.contains x)).eraseDups

/-- `f"{q:.0%}"`: the score as a percentage with no decimals.  Python
rounds half-to-even while Mathlib's `round` rounds half-up; the claims
under study never depend on the rendered digits. -/
def fmtPercent (q : ℚ) : String := toString (round (q * 100) : ℤ) ++ "%"

/-- `generate_explanation` (explainability.py lines 69-112): four
conditional steps (genres, keywords, era, match score) appending in that
order, then a generic fallback only when nothing was appended and the
score is truthy. -/
def generate_explanation (sf rf : MovieFeatures) (similarity_score : Option ℚ) :
    List String :=
  let common_genres := pyIntersect sf.genres rf.genres
  let e : List String :=
    if sf.genres ≠ [] ∧ rf.genres ≠ [] ∧ common_genres ≠ [] then
      ["Similar genres: " ++ String.intercalate ", " (common_genres.take 2)]
    else []
  let common_keywords := pyIntersect sf.keywords rf.keywords
  let e := e ++
    (if sf.keywords ≠ [] ∧ rf.keywords ≠ [] ∧ common_keywords ≠ [] then
      ["Similar themes: " ++ String.intercalate ", " (common_keywords.take 2)]
    else [])
  let e := e ++
    (if truthyYear sf.year ∧ truthyYear rf.year ∧
        ((sf.year.getD 0) - (rf.year.getD 0)).natAbs ≤ 3 then
      ["Similar era: " ++ toString (rf.year.getD 0)]
    else [])
  let e := e ++
    (match similarity_score with
     | some q => ["Match score: " ++ fmtPercent q]
     | none => [])
  if e = [] ∧ truthyScore similarity_score then
    e ++ ["Content similarity: " ++ fmtPercent (similarity_score.getD 0)]
  else e

/-- `explain_recommendation` (explainability.py lines 114-142): resolve the
two ids in the catalog, short-circuiting to a generic sentence when either
is missing. -/
def explain_recommendation (source_movie_id recommended_movie_id : Int)
    (org_dataset : List OrgRow) (similarity_score : Option ℚ) : List String :=
  match org_dataset.find? (fun r => r.id == source_movie_id) with
  | none => ["Recommended based on content similarity"]
  | some src =>
    match org_dataset.find? (fun r => r.id == recommended_movie_id) with
    | none => ["Recommended based on content similarity"]
    | some rec =>
      generate_explanation (get_movie_features src) (get_movie_features rec)
        similarity_score

/-! ## Stable ranking order relations

NumPy's stable ascending argsort and Python's stable `sorted` are modelled
as sorting by the (key, original position) lexicographic order, the
standard extensional characterisation of a stable sort. -/

/-- Score of row `i` in a flat similarity vector (out-of-range reads never
occur on the paths below; `getD` keeps the definition total). -/
def scoreAt (s : List ℚ) (i : Nat) : ℚ := s.getD i 0

/-- Ascending stable argsort order on row indices: by score, ties by the
original (lower) index. -/
def ascLe (s : List ℚ) (i j : Nat) : Prop :=
  scoreAt s i < scoreAt s j ∨ (scoreAt s i = scoreAt s j ∧ i ≤ j)

instance (s : List ℚ) : DecidableRel (ascLe s) := fun i j =>
  inferInstanceAs (Decidable
    (scoreAt s i < scoreAt s j ∨ (scoreAt s i = scoreAt s j ∧ i ≤ j)))

instance (s : List ℚ) : IsTotal Nat (ascLe s) where
  total i j := by
    unfold ascLe
    rcases lt_trichotomy (scoreAt s i) (scoreAt s j) with h | h | h
    · exact Or.inl (Or.inl h)
    · rcases Nat.le_total i j with hij | hij
      · exact Or.inl (Or.inr ⟨h, hij⟩)
      · exact Or.inr (Or.inr ⟨h.symm, hij⟩)
    · exact Or.inr (Or.inl h)

instance (s : List ℚ) : IsTrans Nat (ascLe s) where
  trans i j k hij hjk := by
    unfold ascLe at *
    rcases hij with h1 | ⟨h1, h1'⟩ <;> rcases hjk with h2 | ⟨h2, h2'⟩
    · exact Or.inl (h1.trans h2)
    · exact Or.inl (h2 ▸ h1)
    · exact Or.inl (h1 ▸ h2)
    · exact Or.inr ⟨h1.trans h2, h1'.trans h2'⟩

/-- Stable descending order on `(position, score)` pairs: higher score
first, ties kept in original (lower `fst`) order.  This is
`sorted(..., key=lambda x: x[1], reverse=True)` / `list.sort(...)` of
Python, which are stable. -/
def pairDescLe (a b : Nat × ℚ) : Prop :=
  b.2 < a.2 ∨ (a.2 = b.2 ∧ a.1 ≤ b.1)

instance : DecidableRel pairDescLe := fun a b =>
  inferInstanceAs (Decidable (b.2 < a.2 ∨ (a.2 = b.2 ∧ a.1 ≤ b.1)))

instance : IsTotal (Nat × ℚ) pairDescLe where
  total a b := by
    unfold pairDescLe
    rcases lt_trichotomy a.2 b.2 with h | h | h
    · exact Or.inr (Or.inl h)
    · rcases Nat.le_total a.1 b.1 with hab | hab
      · exact Or.inl (Or.inr ⟨h, hab⟩)
      · exact Or.inr (Or.inr ⟨h.symm, hab⟩)
    · exact Or.inl (Or.inl h)

instance : IsTrans (Nat × ℚ) pairDescLe where
  trans a b c hab hbc := by
    unfold pairDescLe at *
    rcases hab with h1 | ⟨h1, h1'⟩ <;> rcases hbc with h2 | ⟨h2, h2'⟩
    · exact Or.inl (h2.trans h1)
    · exact Or.inl (h2 ▸ h1)
    · exact Or.inl (h1 ▸ h2)
    · exact Or.inr ⟨h1.trans h2, h1'.trans h2'⟩

/-! ## Content-similarity provider (recommender.py lines 71-101) -/

/-- NumPy's stable ascending `argsort` over a score vector: the row
indices `0 .. len-1` ordered by score, ties in original order. -/
def argsortAsc (s : List ℚ) : List Nat :=
  List.insertionSort (ascLe s) (List.range s.length)

/-- `sim_scores.argsort()[-6:-1][::-1]` (recommender.py line 87, same in
recommend_logic.py line 54): the Python slice `[-6:-1]` of a list of
length `N` keeps positions `max(0, N-6) .. N-2`, i.e. drops the final
(top-ranked) entry and keeps the five before it; `[::-1]` reverses. -/
def similar_indices (s : List ℚ) : List Nat :=
  (((argsortAsc s).take ((argsortAsc s).length - 1)).drop
    ((argsortAsc s).length - 6)).reverse

/-- `recommend_content` (recommender.py lines 71-101).  The cosine kernel
`cosine_similarity(tfidf_matrix[idx], tfidf_matrix).flatten()` is the
external collaborator `simRow idx`. -/
def recommend_content (movie_title : String) (movies_tag : List MovieTagRow)
    (simRow : Nat → List ℚ) (org_dataset : List OrgRow) :
    List (String × String × List String) :=
  let t := normalize_title_str movie_title
  if ¬ (movies_tag.map (fun r => r.title)).contains t then []
  else
    let idx := movies_tag.findIdx (fun r => r.title == t)
    let source_movie_id := (movies_tag.getD idx default).id
    let sim_scores := simRow idx
    (similar_indices sim_scores).map (fun i =>
      let row := movies_tag.getD i default
      ((row.title : String), get_poster_by_id row.id org_dataset,
        explain_recommendation source_movie_id row.id org_dataset
          (some (scoreAt sim_scores i))))

/-- The ranking §4.2 of the spec describes, written from the spec's words:
rank all rows descending by score with ties won by the lower original row
index, drop rank 1 (the movie itself), keep ranks 2-6.  Used only to
compare the implementation's tie-breaking against the spec's. -/
def spec_content_order (s : List ℚ) : List Nat :=
  ((List.insertionSort
      (fun i j => scoreAt s j < scoreAt s i ∨ (scoreAt s i = scoreAt s j ∧ i ≤ j))
      (List.range s.length)).drop 1).take 5

/-! ## Search ranker (recommender.py lines 10-69) -/

/-- Python `str.split()` with no separator: split on whitespace runs,
discarding empty pieces. -/
def pySplitWs (l : List Char) : List (List Char) :=
  (l.splitOnP (fun c => isPySpace c)).filter (fun w => w ≠ [])

/-- Python's substring test `needle in haystack` on character lists. -/
def isSubstr (needle : List Char) : List Char → Bool
  | [] => needle.isEmpty
  | h :: t => needle.isPrefixOf (h :: t) || isSubstr needle t

/-- The score rows accumulated by the `for idx, row in movies_tag.iterrows()`
loop of `search_by_keywords` (recommender.py lines 36-50): rows with at
least one keyword occurring as a substring of the lowercased tag, scored
`matches / len(keywords)`, multiplied by 1.5 when every keyword matched. -/
def searchScores (keywords : List (List Char)) (movies_tag : List MovieTagRow) :
    List (Nat × ℚ) :=
  movies_tag.enum.filterMap (fun p =>
    let tag := p.2.tag.data.map Char.toLower
    let nMatches := keywords.countP (fun k => isSubstr k tag)
    if nMatches > 0 then
      let score : ℚ := (nMatches : ℚ) / (keywords.length : ℚ)
      let score := if nMatches = keywords.length then score * (3/2) else score
      some (p.1, score)
    else none)

/-! ## The models dictionary and the loader (src/src/data/loader.py) -/

/-- Exceptions a Python-level operation can raise in this model. -/
inductive PyErr where
  | keyError (key : String)
  | indexError
deriving DecidableEq

/-- The `models` dictionary.  Its possible keys are statically known, so
it is a structure of optional fields; a missing key is `none`.  The
sklearn neighbor index is the collaborator `knn_model : row ↦ k ↦ the k
nearest row positions in ascending-distance order` (the CSR matrix only
selects the query row, which the collaborator receives directly). -/
structure Models where
  movies_tag : Option (List MovieTagRow) := none
  tfidf_matrix : Option Unit := none
  org_dataset : Option (List OrgRow) := none
  movie_user_matrix : Option Unit := none
  csr_matrix : Option Unit := none
  csr_out_matrix : Option Unit := none
  movie_index : Option (List Int) := none
  knn_model : Option (Nat → Nat → List Nat) := none
  svd_similarity : Option (List (List ℚ)) := none

/-- Python dict access `models[key]`: `KeyError` when absent. -/
def pyGet {β : Type} (field : Option β) (key : String) : Except PyErr β :=
  match field with
  | some v => Except.ok v
  | none => Except.error (PyErr.keyError key)

/-- `load_models` (loader.py lines 10-47) on its success path.  The
required artifacts always load; the collaborative block (guarded by an
inner `try` catching only `FileNotFoundError`) loads all-or-nothing,
`collab_ok` saying whether those files were found.  The loader stores the
collaborative matrix under the keys `movie_user_matrix` and `csr_matrix`
and never assigns `csr_out_matrix` or `movie_index` — the keys the
recommenders read.  (As written the collaborative block cannot even
succeed: it reads `config.MOVIE_USER_MATRIX_PATH`, an attribute config.py
no longer defines, so the resulting `AttributeError` escapes the inner
`try` and halts the app; the dict below is the most charitable reading,
with the paths resolving.) -/
def load_models (mt : List MovieTagRow) (org : List OrgRow)
    (knn : Nat → Nat → List Nat) (svd : List (List ℚ)) (collab_ok : Bool) :
    Models :=
  { movies_tag := some mt
    tfidf_matrix := some ()
    org_dataset := some org
    movie_user_matrix := if collab_ok then some () else none
    csr_matrix := if collab_ok then some () else none
    csr_out_matrix := none
    movie_index := none
    knn_model := if collab_ok then some knn else none
    svd_similarity := if collab_ok then some svd else none }

/-- `search_by_keywords` (recommender.py lines 10-69): guard empty
queries, split the lowercased query into keywords, score every tag row,
sort stably by descending score, truncate to `n_results` and resolve
titles and posters. -/
def search_by_keywords (query : String) (models : Models)
    (n_results : Nat) : Except PyErr (List (String × String × ℚ)) :=
  match pyGet models.movies_tag "movies_tag" with
  | Except.error e => Except.error e
  | Except.ok movies_tag =>
    match pyGet models.org_dataset "org_dataset" with
    | Except.error e => Except.error e
    | Except.ok org_dataset =>
      if query.data = [] ∨ stripWs query.data = [] then Except.ok []
      else
        let q := stripWs (query.data.map Char.toLower)
        let keywords := pySplitWs q
        let scores := searchScores keywords movies_tag
        let scores := List.insertionSort pairDescLe scores
        let top_results := scores.take n_results
        if top_results = [] then Except.ok []
        else
          Except.ok (top_results.map (fun p =>
            let row := movies_tag.getD p.1 default
            (row.title, get_poster_by_id row.id org_dataset, p.2)))

/-! ## Neighbor-based provider (recommender.py lines 103-150) -/

/-- The `for i in range(1, len(indices[0]))` loop body of `recommend_knn`
(lines 137-149) over the remaining neighbor positions: resolve each
position in the Movie Index (an out-of-range position would raise
`IndexError`), silently skip ids absent from the catalog, and attach the
explanations with the collaborative marker sentence first. -/
def knnLoop (positions : List Nat) (movie_index : List Int) (movie_id : Int)
    (org_dataset : List OrgRow) :
    Except PyErr (List (String × String × List String)) :=
  match positions with
  | [] => Except.ok []
  | p :: rest =>
    match movie_index.get? p with
    | none => Except.error PyErr.indexError
    | some sim_id =>
      match org_dataset.find? (fun r => r.id == sim_id) with
      | none => knnLoop rest movie_index movie_id org_dataset
      | some row =>
        match knnLoop rest movie_index movie_id org_dataset with
        | Except.error e => Except.error e
        | Except.ok tail =>
          Except.ok ((row.title, get_poster_by_id sim_id org_dataset,
            "Collaborative filtering: Users with similar taste liked this" ::
              explain_recommendation movie_id sim_id org_dataset none) :: tail)

/-- `recommend_knn` (recommender.py lines 103-150): disabled (empty)
without the `knn_model` key; reads `csr_out_matrix` and `movie_index`;
empty when the title has no catalog match or its id is not in the Movie
Index; otherwise queries the neighbor index with
`n_neighbors = min(11, len(movie_index))`, processes `indices[0][1:]`,
and caps the result to 5. -/
def recommend_knn (movie_title : String) (models : Models) :
    Except PyErr (List (String × String × List String)) :=
  if models.knn_model.isNone then Except.ok []
  else
    match pyGet models.org_dataset "org_dataset" with
    | Except.error e => Except.error e
    | Except.ok org_dataset =>
      match pyGet models.csr_out_matrix "csr_out_matrix" with
      | Except.error e => Except.error e
      | Except.ok _ =>
        match pyGet models.movie_index "movie_index" with
        | Except.error e => Except.error e
        | Except.ok movie_index =>
          match pyGet models.knn_model "knn_model" with
          | Except.error e => Except.error e
          | Except.ok knn_model =>
            let t := normalize_title_str movie_title
            match org_dataset.find? (fun r => r.title == t) with
            | none => Except.ok []
            | some row =>
              let movie_id := row.id
              if ¬ movie_index.contains movie_id then Except.ok []
              else
                let movie_idx := movie_index.indexOf movie_id
                let n_neighbors := min 11 movie_index.length
                let indices := knn_model movie_idx n_neighbors
                match knnLoop (indices.drop 1) movie_index movie_id org_dataset with
                | Except.error e => Except.error e
                | Except.ok result => Except.ok (result.take 5)

/-! ## Latent-similarity provider (recommender.py lines 152-192) -/

/-- The `for idx, score in scores:` loop body of `recommend_svd`
(lines 178-191): resolve each (row position, score) pair, skip ids absent
from the catalog, attach explanations (with the score) behind the SVD
marker sentence. -/
def svdLoop (scores : List (Nat × ℚ)) (movie_index : List Int)
    (movie_id : Int) (org_dataset : List OrgRow) :
    Except PyErr (List (String × String × List String)) :=
  match scores with
  | [] => Except.ok []
  | (idx, score) :: rest =>
    match movie_index.get? idx with
    | none => Except.error PyErr.indexError
    | some sim_id =>
      match org_dataset.find? (fun r => r.id == sim_id) with
      | none => svdLoop rest movie_index movie_id org_dataset
      | some row =>
        match svdLoop rest movie_index movie_id org_dataset with
        | Except.error e => Except.error e
        | Except.ok tail =>
          Except.ok ((row.title, get_poster_by_id sim_id org_dataset,
            "SVD analysis: Highly correlated with your preferences" ::
              explain_recommendation movie_id sim_id org_dataset (some score)) :: tail)

/-- `recommend_svd` (recommender.py lines 152-192): same gating as the
KNN provider against `svd_similarity`; reads the movie's matrix row,
sorts `enumerate(row)` stably by descending score, keeps `[1:11]`, caps
to 5. -/
def recommend_svd (movie_title : String) (models : Models) :
    Except PyErr (List (String × String × List String)) :=
  if models.svd_similarity.isNone then Except.ok []
  else
    match pyGet models.org_dataset "org_dataset" with
    | Except.error e => Except.error e
    | Except.ok org_dataset =>
      match pyGet models.csr_out_matrix "csr_out_matrix" with
      | Except.error e => Except.error e
      | Except.ok _ =>
        match pyGet models.movie_index "movie_index" with
        | Except.error e => Except.error e
        | Except.ok movie_index =>
          match pyGet models.svd_similarity "svd_similarity" with
          | Except.error e => Except.error e
          | Except.ok svd_similarity =>
            let t := normalize_title_str movie_title
            match org_dataset.find? (fun r => r.title == t) with
            | none => Except.ok []
            | some row =>
              let movie_id := row.id
              if ¬ movie_index.contains movie_id then Except.ok []
              else
                let movie_idx := movie_index.indexOf movie_id
                match svd_similarity.get? movie_idx with
                | none => Except.error PyErr.indexError
                | some simRow =>
                  let scores :=
                    ((List.insertionSort pairDescLe simRow.enum).drop 1).take 10
                  match svdLoop scores movie_index movie_id org_dataset with
                  | Except.error e => Except.error e
                  | Except.ok result => Except.ok (result.take 5)

/-! ## Hybrid mergers -/

/-- A weights dictionary `{'content': _, 'knn': _, 'svd': _}`. -/
structure Weights where
  content : ℚ
  knn : ℚ
  svd : ℚ
deriving DecidableEq

/-- `config.HYBRID_WEIGHTS = {'content': 0.3, 'knn': 0.3, 'svd': 0.4}`
(config.py line 21), the default weights of both hybrid mergers. -/
def HYBRID_WEIGHTS : Weights := { content := 3/10, knn := 3/10, svd := 4/10 }

/-- Weight normalization (recommender.py lines 202-203, recommend_logic.py
lines 128-129): divide each weight by the sum of all weights. -/
def normalizeWeights (w : Weights) : Weights :=
  let total := w.content + w.knn + w.svd
  { content := w.content / total, knn := w.knn / total, svd := w.svd / total }

/-- Insertion-ordered dict lookup (`title in d`, `d[title]`). -/
def pyDictGet {β : Type} (m : List (String × β)) (t : String) : Option β :=
  (m.find? (fun p => p.1 == t)).map (fun p => p.2)

/-- Insertion-ordered dict assignment `d[title] = v`: update in place when
the key exists (keeping its position), append otherwise. -/
def pyDictSet {β : Type} (m : List (String × β)) (t : String) (v : β) :
    List (String × β) :=
  if (m.find? (fun p => p.1 == t)).isSome then
    m.map (fun p => if p.1 == t then (t, v) else p)
  else m ++ [(t, v)]

/-- A deterministic model of `list(set(existing + explanations))`
(recommender.py lines 223 and 231): duplicates removed; CPython's set
iteration order is abstracted to first-occurrence order (the spec itself
guarantees no order after the union). -/
def pySetUnion (existing new : List String) : List String :=
  (existing ++ new).eraseDups

/-- The per-title accumulator of recommend_logic.py's hybrid
(lines 150-151): running weighted score, poster, contributing methods. -/
structure ScoreEntry where
  score : ℚ
  poster_url : String
  methods : List String
deriving DecidableEq

/-- One provider pass of recommend_logic.py's `recommend_hybrid`
(lines 146-175): positional score `(len(recs) - idx) / len(recs)`,
multiplied by the provider's normalized weight and accumulated per title;
the `fill` flag distinguishes the KNN/SVD passes, which also fill the
poster when the stored one is empty (the content pass has no such
lines). -/
def providerFold (recs : List (String × String)) (weight : ℚ)
    (method : String) (fill : Bool) (m0 : List (String × ScoreEntry)) :
    List (String × ScoreEntry) :=
  recs.enum.foldl (fun m p =>
    let idx := p.1
    let title := p.2.1
    let poster_url := p.2.2
    let score : ℚ := ((recs.length : ℚ) - (idx : ℚ)) / (recs.length : ℚ)
    let entry : ScoreEntry :=
      match pyDictGet m title with
      | none => { score := 0, poster_url := poster_url, methods := [] }
      | some e => e
    let entry := { entry with
      score := entry.score + score * weight
      methods := entry.methods ++ [method] }
    let entry :=
      if fill ∧ entry.poster_url = "" then { entry with poster_url := poster_url }
      else entry
    pyDictSet m title entry) m0

/-- `recommend_hybrid` of recommend_logic.py (lines 111-190), as a
function of the three providers' outputs (the claims quantify over those):
normalize weights, bail out when all providers are empty, accumulate
weighted positional scores per title, sort stably by descending combined
score, return the top `n_recommendations` as (title, poster) pairs. -/
def hybridMergeLogic (content_recs knn_recs svd_recs : List (String × String))
    (weights : Weights) (n_recommendations : Nat) : List (String × String) :=
  let w := normalizeWeights weights
  if content_recs = [] ∧ knn_recs = [] ∧ svd_recs = [] then []
  else
    let m := providerFold content_recs w.content "Content" false []
    let m := providerFold knn_recs w.knn "KNN" true m
    let m := providerFold svd_recs w.svd "SVD" true m
    let sorted_movies :=
      (List.insertionSort
        (fun a b => b.2.2.score < a.2.2.score ∨
          (a.2.2.score = b.2.2.score ∧ a.1 ≤ b.1))
        m.enum).map (fun p => p.2)
    (sorted_movies.take n_recommendations).map (fun p => (p.1, p.2.poster_url))

instance : DecidableRel
    (fun (a b : Nat × String × ScoreEntry) => b.2.2.score < a.2.2.score ∨
      (a.2.2.score = b.2.2.score ∧ a.1 ≤ b.1)) := fun a b =>
  inferInstanceAs (Decidable
    (b.2.2.score < a.2.2.score ∨ (a.2.2.score = b.2.2.score ∧ a.1 ≤ b.1)))

/-- `recommend_hybrid` of src/src/models/recommender.py (lines 194-236),
as a function of the three providers' outputs.  It normalizes the weights
and then never reads them again; titles are collected into an
insertion-ordered dict (content first), later providers only merge
explanation lists (`list(set(...))`) while the stored poster is kept
as-is; the first `n_recommendations` dict items are returned in insertion
order — no positional scoring and no sort. -/
def hybridMergeApp
    (content_recs knn_recs svd_recs : List (String × String × List String))
    (weights : Weights) (n_recommendations : Nat) :
    List (String × String × List String) :=
  let _w := normalizeWeights weights
  if content_recs = [] ∧ knn_recs = [] ∧ svd_recs = [] then []
  else
    let m : List (String × String × List String) :=
      content_recs.foldl (fun m r => pyDictSet m r.1 (r.2.1, r.2.2)) []
    let m := knn_recs.foldl (fun m r =>
      match pyDictGet m r.1 with
      | none => pyDictSet m r.1 (r.2.1, r.2.2)
      | some e => pyDictSet m r.1 (e.1, pySetUnion e.2 r.2.2)) m
    let m := svd_recs.foldl (fun m r =>
      match pyDictGet m r.1 with
      | none => pyDictSet m r.1 (r.2.1, r.2.2)
      | some e => pyDictSet m r.1 (e.1, pySetUnion e.2 r.2.2)) m
    (m.take n_recommendations).map (fun p => (p.1, p.2.1, p.2.2))

/-! ## Helper lemmas -/

/-- Adjacent characters of a whitespace-collapsed string are never both
whitespace. -/
def NoRun (l : List Char) : Prop :=
  l.Chain' (fun a b => ¬(isPySpace a = true ∧ isPySpace b = true))

theorem list_map_id_of {α : Type} (f : α → α) :
    ∀ l : List α, (∀ x ∈ l, f x = x) → l.map f = l := by
  intro l
  induction l with
  | nil => intro _; rfl
  | cons x xs ih =>
    intro h
    simp only [List.map_cons]
    rw [h x (by simp), ih (fun y hy => h y (by simp [hy]))]

theorem mem_collapseAux {c : Char} :
    ∀ (l : List Char) (b : Bool), c ∈ collapseAux b l →
      (c ∈ l ∧ isPySpace c = false) ∨ c = ' ' := by
  intro l
  induction l with
  | nil => intro b h; simp [collapseAux] at h
  | cons x xs ih =>
    intro b h
    unfold collapseAux at h
    by_cases hx : isPySpace x = true
    · rw [if_pos hx] at h
      cases b with
      | true =>
        rw [if_pos rfl] at h
        rcases ih true h with ⟨h1, h2⟩ | h1
        · exact Or.inl ⟨List.mem_cons_of_mem _ h1, h2⟩
        · exact Or.inr h1
      | false =>
        rw [if_neg Bool.false_ne_true] at h
        rcases List.mem_cons.mp h with h | h
        · exact Or.inr h
        · rcases ih true h with ⟨h1, h2⟩ | h1
          · exact Or.inl ⟨List.mem_cons_of_mem _ h1, h2⟩
          · exact Or.inr h1
    · rw [if_neg hx] at h
      rcases List.mem_cons.mp h with h | h
      · subst h
        exact Or.inl ⟨List.mem_cons_self _ _, by simpa using hx⟩
      · rcases ih false h with ⟨h1, h2⟩ | h1
        · exact Or.inl ⟨List.mem_cons_of_mem _ h1, h2⟩
        · exact Or.inr h1

theorem head_collapseAux_true {c : Char} :
    ∀ l : List Char, (collapseAux true l).head? = some c → isPySpace c = false := by
  intro l
  induction l with
  | nil => intro h; simp [collapseAux] at h
  | cons x xs ih =>
    intro h
    unfold collapseAux at h
    by_cases hx : isPySpace x = true
    · rw [if_pos hx, if_pos rfl] at h
      exact ih h
    · rw [if_neg hx] at h
      simp only [List.head?_cons, Option.some.injEq] at h
      subst h
      simpa using hx

theorem chain_collapseAux : ∀ (l : List Char) (b : Bool), NoRun (collapseAux b l) := by
  intro l
  induction l with
  | nil => intro b; simp [collapseAux, NoRun]
  | cons x xs ih =>
    intro b
    unfold collapseAux
    by_cases hx : isPySpace x = true
    · rw [if_pos hx]
      cases b with
      | true => rw [if_pos rfl]; exact ih true
      | false =>
        rw [if_neg Bool.false_ne_true]
        refine List.chain'_cons'.mpr ⟨?_, ih true⟩
        intro y hy
        intro hcon
        have := head_collapseAux_true _ hy
        simp [this] at hcon
    · rw [if_neg hx]
      refine List.chain'_cons'.mpr ⟨?_, ih false⟩
      intro y _
      intro hcon
      simp [hcon.1] at hx

theorem collapseAux_eq_self :
    ∀ (l : List Char) (b : Bool), NoRun l →
      (∀ c ∈ l, isPySpace c = true → c = ' ') →
      (b = true → ∀ c, l.head? = some c → isPySpace c = false) →
      collapseAux b l = l := by
  intro l
  induction l with
  | nil => intro b _ _ _; rfl
  | cons x xs ih =>
    intro b hchain hsp hb
    unfold collapseAux
    by_cases hx : isPySpace x = true
    · cases b with
      | true =>
        exact absurd hx (by simp [hb rfl x rfl])
      | false =>
        rw [if_pos hx, if_neg Bool.false_ne_true]
        have hx' : x = ' ' := hsp x (List.mem_cons_self _ _) hx
        have htail : collapseAux true xs = xs := by
          refine ih true (List.chain'_cons'.mp hchain).2
            (fun c hc h => hsp c (List.mem_cons_of_mem _ hc) h) ?_
          intro _ c hc
          have := (List.chain'_cons'.mp hchain).1 c hc
          by_contra hcs
          exact this ⟨hx, by simpa using hcs⟩
        rw [htail, hx']
    · rw [if_neg hx]
      rw [ih false (List.chain'_cons'.mp hchain).2
        (fun c hc h => hsp c (List.mem_cons_of_mem _ hc) h) (by simp)]

theorem head_dropWhile_pySpace {c : Char} :
    ∀ l : List Char, (l.dropWhile isPySpace).head? = some c → isPySpace c = false := by
  intro l
  induction l with
  | nil => intro h; simp [List.dropWhile] at h
  | cons x xs ih =>
    intro h
    rw [List.dropWhile_cons] at h
    by_cases hx : isPySpace x = true
    · rw [if_pos hx] at h
      exact ih h
    · rw [if_neg hx] at h
      simp only [List.head?_cons, Option.some.injEq] at h
      subst h
      simpa using hx

theorem dropWhile_eq_self_of_head {p : Char → Bool} :
    ∀ l : List Char, (∀ c, l.head? = some c → p c = false) → l.dropWhile p = l := by
  intro l h
  cases l with
  | nil => rfl
  | cons x xs =>
    rw [List.dropWhile_cons, if_neg (by simp [h x rfl])]

theorem head_of_isPrefix {α : Type} {p m : List α} {c : α} (h : p <+: m)
    (hc : p.head? = some c) : m.head? = some c := by
  obtain ⟨t, rfl⟩ := h
  cases p with
  | nil => simp at hc
  | cons x xs => simpa using hc

theorem rstripWs_isPrefix (l : List Char) : rstripWs l <+: l := by
  rw [← List.reverse_suffix]
  unfold rstripWs
  rw [List.reverse_reverse]
  exact List.dropWhile_suffix isPySpace

theorem getLast_rstripWs {l : List Char} {c : Char}
    (h : (rstripWs l).getLast? = some c) : isPySpace c = false := by
  unfold rstripWs at h
  rw [List.getLast?_reverse] at h
  exact head_dropWhile_pySpace _ h

theorem rstripWs_eq_self {l : List Char}
    (h : ∀ c, l.getLast? = some c → isPySpace c = false) : rstripWs l = l := by
  unfold rstripWs
  rw [dropWhile_eq_self_of_head, List.reverse_reverse]
  intro c hc
  rw [List.head?_reverse] at hc
  exact h c hc

theorem head_stripWs {l : List Char} {c : Char}
    (h : (stripWs l).head? = some c) : isPySpace c = false := by
  unfold stripWs at h
  have h2 := head_of_isPrefix (rstripWs_isPrefix (lstripWs l)) h
  exact head_dropWhile_pySpace _ h2

theorem getLast_stripWs {l : List Char} {c : Char}
    (h : (stripWs l).getLast? = some c) : isPySpace c = false :=
  getLast_rstripWs h

theorem stripWs_isInfix (l : List Char) : stripWs l <:+: l :=
  (rstripWs_isPrefix (lstripWs l)).isInfix.trans
    (List.dropWhile_suffix isPySpace).isInfix

theorem stripWs_eq_self {l : List Char}
    (h1 : ∀ c, l.head? = some c → isPySpace c = false)
    (h2 : ∀ c, l.getLast? = some c → isPySpace c = false) : stripWs l = l := by
  unfold stripWs lstripWs
  rw [dropWhile_eq_self_of_head _ h1]
  exact rstripWs_eq_self h2

theorem char_toLower_fixed {c : Char} (h : c.toNat < 65 ∨ 90 < c.toNat) :
    c.toLower = c := by
  unfold Char.toLower
  rw [if_neg]
  omega

theorem keep_nonspace_toLower_fixed {c : Char} (hk : keepChar c = true)
    (hs : isPySpace c = false) : c.toLower = c := by
  unfold keepChar at hk
  rw [hs] at hk
  simp only [Bool.or_false, Bool.or_eq_true, Bool.and_eq_true,
    decide_eq_true_eq] at hk
  rcases hk with ⟨h1, _⟩ | ⟨h1, _⟩
  · refine char_toLower_fixed (Or.inr ?_)
    have : (97 : Nat) ≤ c.toNat := by
      simpa [Char.le_def, UInt32.le_def, BitVec.le_def] using h1
    omega
  · refine char_toLower_fixed (Or.inl ?_)
    rename_i h2
    have : c.toNat ≤ 57 := by
      simpa [Char.le_def, UInt32.le_def, BitVec.le_def] using h2
    omega

/-- Character-level facts about the output of `normChars`: every character
is either a kept non-whitespace character or a plain space, no two
adjacent characters are whitespace, and the ends are not whitespace. -/
theorem normChars_facts (l : List Char) :
    (∀ c ∈ normChars l, (keepChar c = true ∧ isPySpace c = false) ∨ c = ' ') ∧
    NoRun (normChars l) ∧
    (∀ c, (normChars l).head? = some c → isPySpace c = false) ∧
    (∀ c, (normChars l).getLast? = some c → isPySpace c = false) := by
  unfold normChars collapseWs
  set f := (l.map Char.toLower).filter keepChar with hf
  refine ⟨?_, ?_, fun c hc => head_stripWs hc, fun c hc => getLast_stripWs hc⟩
  · intro c hc
    have hc2 : c ∈ collapseAux false f := (stripWs_isInfix _).subset hc
    rcases mem_collapseAux _ _ hc2 with ⟨h1, h2⟩ | h1
    · exact Or.inl ⟨List.of_mem_filter h1, h2⟩
    · exact Or.inr h1
  · exact List.Chain'.infix (chain_collapseAux f false) (stripWs_isInfix _)

/-- The title normalizer is idempotent at the character level. -/
theorem normChars_idempotent (l : List Char) :
    normChars (normChars l) = normChars l := by
  obtain ⟨hmem, hchain, hhead, hlast⟩ := normChars_facts l
  set r := normChars l with hr
  have hmap : r.map Char.toLower = r := by
    refine list_map_id_of _ _ (fun c hc => ?_)
    rcases hmem c hc with ⟨h1, h2⟩ | h1
    · exact keep_nonspace_toLower_fixed h1 h2
    · subst h1; rfl
  have hfilter : r.filter keepChar = r := by
    rw [List.filter_eq_self]
    intro c hc
    rcases hmem c hc with ⟨h1, _⟩ | h1
    · exact h1
    · subst h1; rfl
  have hcollapse : collapseWs r = r := by
    refine collapseAux_eq_self r false hchain ?_ (by simp)
    intro c hc hsp
    rcases hmem c hc with ⟨_, h2⟩ | h1
    · rw [h2] at hsp; exact absurd hsp (by simp)
    · exact h1
  show stripWs (collapseWs ((r.map Char.toLower).filter keepChar)) = r
  rw [hmap, hfilter, hcollapse]
  exact stripWs_eq_self hhead hlast

/-- A sorted list without duplicates ends in an element that strictly
dominates every other element of the list. -/
theorem getLast_of_sorted_dom {α : Type} {r : α → α → Prop} :
    ∀ {L : List α} {a : α}, L.Pairwise r → L.Nodup → a ∈ L →
      (∀ b ∈ L, b ≠ a → ¬ r a b) → L.getLast? = some a := by
  intro L
  induction L with
  | nil => intro a _ _ ha _; simp at ha
  | cons x xs ih =>
    intro a hp hnd ha hdom
    rcases List.mem_cons.mp ha with rfl | ha
    · cases xs with
      | nil => rfl
      | cons y ys =>
        exfalso
        have hy : y ∈ a :: y :: ys := by simp
        have hya : y ≠ a := by
          intro h
          subst h
          exact (List.nodup_cons.mp hnd).1 (by simp)
        exact hdom y hy hya ((List.pairwise_cons.mp hp).1 y (by simp))
    · cases xs with
      | nil => simp at ha
      | cons y ys =>
        rw [List.getLast?_cons_cons]
        exact ih (List.pairwise_cons.mp hp).2 (List.nodup_cons.mp hnd).2 ha
          (fun b hb hba => hdom b (List.mem_cons_of_mem _ hb) hba)

/-- The head of a sorted list is an element that strictly dominates every
other element of the list. -/
theorem head_of_sorted_dom {α : Type} {r : α → α → Prop} {L : List α} {a : α}
    (hp : L.Pairwise r) (hnd : L.Nodup) (ha : a ∈ L)
    (hdom : ∀ b ∈ L, b ≠ a → ¬ r b a) : L.head? = some a := by
  cases L with
  | nil => simp at ha
  | cons x xs =>
    rcases List.mem_cons.mp ha with rfl | ha
    · rfl
    · exfalso
      have hxa : x ≠ a := by
        intro h
        subst h
        exact (List.nodup_cons.mp hnd).1 ha
      exact hdom x (by simp) hxa ((List.pairwise_cons.mp hp).1 a ha)

theorem argsortAsc_perm (s : List ℚ) :
    List.Perm (argsortAsc s) (List.range s.length) :=
  List.perm_insertionSort _ _

theorem argsortAsc_length (s : List ℚ) : (argsortAsc s).length = s.length := by
  rw [(argsortAsc_perm s).length_eq, List.length_range]

theorem argsortAsc_nodup (s : List ℚ) : (argsortAsc s).Nodup :=
  ((argsortAsc_perm s).nodup_iff).mpr (List.nodup_range _)

theorem argsortAsc_sorted (s : List ℚ) : (argsortAsc s).Pairwise (ascLe s) :=
  List.sorted_insertionSort _ _

/-- Under a strict maximum at `idx`, the ascending argsort ends with
`idx`. -/
theorem argsortAsc_getLast {s : List ℚ} {idx : Nat} (hidx : idx < s.length)
    (hmax : ∀ j < s.length, j ≠ idx → scoreAt s j < scoreAt s idx) :
    (argsortAsc s).getLast? = some idx := by
  refine getLast_of_sorted_dom (argsortAsc_sorted s) (argsortAsc_nodup s) ?_ ?_
  · exact (argsortAsc_perm s).mem_iff.mpr (List.mem_range.mpr hidx)
  · intro b hb hba
    have hbr : b < s.length :=
      List.mem_range.mp ((argsortAsc_perm s).mem_iff.mp hb)
    have hlt := hmax b hbr hba
    intro hle
    rcases hle with h | ⟨h, _⟩
    · exact absurd (h.trans hlt) (lt_irrefl _)
    · rw [h] at hlt; exact absurd hlt (lt_irrefl _)

/-- The Python slice-and-reverse `argsort()[-6:-1][::-1]` equals: reverse
the ascending ranking (to descending), drop rank 1, keep the next five. -/
theorem similar_indices_eq (s : List ℚ) :
    similar_indices s = ((argsortAsc s).reverse.drop 1).take 5 := by
  unfold similar_indices
  set L := argsortAsc s with hL
  set N := L.length with hN
  rw [List.reverse_drop, List.length_take, List.reverse_take]
  rcases Nat.lt_or_ge N 1 with h1 | h1
  · have h0 : N = 0 := by omega
    have : L = [] := List.length_eq_zero.mp (by omega)
    simp [this]
  · have e1 : N - (N - 1) = 1 := by omega
    rw [e1]
    rcases Nat.lt_or_ge N 6 with h6 | h6
    · have e2 : N - 6 = 0 := by omega
      have hlen : (L.reverse.drop 1).length = N - 1 := by
        simp [hN]
      rw [e2, Nat.sub_zero]
      rw [List.take_of_length_le (by rw [hlen]; omega),
        List.take_of_length_le (by rw [hlen]; omega)]
    · have e2 : min (N - 1) N - (N - 6) = 5 := by omega
      rw [e2]

/-! ## Claim theorems -/

/-- C9: the title normalizer is idempotent for every input
(`normalize(normalize(x)) == normalize(x)`), it maps
`"Inception: Part 2!"` to `"inception part 2"`, and it returns every
non-string input unchanged. -/
theorem normalize_title_idempotent :
    (∀ v : PyVal, normalize_title (normalize_title v) = normalize_title v) ∧
    normalize_title (PyVal.str "Inception: Part 2!") =
      PyVal.str "inception part 2" ∧
    (∀ t : Nat, normalize_title (PyVal.nonStr t) = PyVal.nonStr t) := by
  refine ⟨?_, by decide, fun t => rfl⟩
  intro v
  cases v with
  | str s =>
    show PyVal.str (normalize_title_str (normalize_title_str s)) = _
    unfold normalize_title_str
    exact congrArg PyVal.str (congrArg String.mk (normChars_idempotent s.data))
  | nonStr t => rfl

/-- C2 counterexample: on the score vector `[4, 2, 2, 1]` (the query
movie at row 0 with the strictly largest score, rows 1 and 2 tied) the
content ranking emits `[2, 1, 3]` — the tied pair in *higher-index-first*
order — while the ranking claimed by the spec (stable ties in favor of the
lower original row index) would emit `[1, 2, 3]`; `recommend_content` on a
four-row catalog realising these scores therefore returns the tied titles
in the order `["y", "x", "z"]`, not `["x", "y", "z"]`. -/
theorem content_tiebreak_counterexample :
    similar_indices [4, 2, 2, 1] = [2, 1, 3] ∧
    spec_content_order [4, 2, 2, 1] = [1, 2, 3] ∧
    similar_indices [4, 2, 2, 1] ≠ spec_content_order [4, 2, 2, 1] ∧
    (recommend_content "q"
        [{ title := "q", id := 1, tag := "" }, { title := "x", id := 2, tag := "" },
         { title := "y", id := 3, tag := "" }, { title := "z", id := 4, tag := "" }]
        (fun i => if i = 0 then [4, 2, 2, 1] else [])
        [{ id := 1, title := "q", poster_url := "", genres := [], keywords := [], year := none },
         { id := 2, title := "x", poster_url := "", genres := [], keywords := [], year := none },
         { id := 3, title := "y", poster_url := "", genres := [], keywords := [], year := none },
         { id := 4, title := "z", poster_url := "", genres := [], keywords := [], year := none }]).map
      (fun r => r.1) = ["y", "x", "z"] := by
  refine ⟨by decide, by decide, by decide, by decide⟩

/-- C2 amended: for a catalog of at least two rows whose query row holds
the strictly largest cosine score, the content ranking equals the
descending ranking with rank 1 dropped and the next five kept (ranks 2-6),
so the query movie is excluded; consecutive results are in descending
score order with ties broken in favor of the *higher* original row index
(the reversal of the stable ascending argsort flips the tie order), and
the result has exactly `min 5 (N - 1)` entries. -/
theorem content_ranking_amended (s : List ℚ) (idx : Nat)
    (_hN : 2 ≤ s.length) (hidx : idx < s.length)
    (hmax : ∀ j < s.length, j ≠ idx → scoreAt s j < scoreAt s idx) :
    similar_indices s = ((argsortAsc s).reverse.drop 1).take 5 ∧
    idx ∉ similar_indices s ∧
    (similar_indices s).Pairwise (fun i j => ascLe s j i) ∧
    (similar_indices s).length = min 5 (s.length - 1) := by
  have heq := similar_indices_eq s
  refine ⟨heq, ?_, ?_, ?_⟩
  · rw [heq]
    have hlast := argsortAsc_getLast hidx hmax
    have hrev : (argsortAsc s).reverse.head? = some idx := by
      rw [List.head?_reverse]; exact hlast
    obtain ⟨tl, htl⟩ : ∃ tl, (argsortAsc s).reverse = idx :: tl := by
      cases hrev2 : (argsortAsc s).reverse with
      | nil => rw [hrev2] at hrev; simp at hrev
      | cons a tl =>
        rw [hrev2] at hrev
        simp only [List.head?_cons, Option.some.injEq] at hrev
        exact ⟨tl, by rw [hrev]⟩
    rw [htl]
    have hnd : (idx :: tl).Nodup := by
      rw [← htl, List.nodup_reverse]
      exact argsortAsc_nodup s
    intro hmem
    exact (List.nodup_cons.mp hnd).1
      (List.mem_of_mem_take (by simpa using hmem))
  · rw [heq]
    have hrevp : (argsortAsc s).reverse.Pairwise (fun i j => ascLe s j i) := by
      rw [List.pairwise_reverse]
      exact argsortAsc_sorted s
    exact hrevp.sublist ((List.take_sublist _ _).trans (List.drop_sublist _ _))
  · rw [heq, List.length_take, List.length_drop, List.length_reverse,
      argsortAsc_length]

/-- C2 amended witness: the amended content-ranking theorem instantiated
at the concrete score vector `[4, 2, 1]` with the query at row 0. -/
theorem content_ranking_amended_witness :
    similar_indices [4, 2, 1] = ((argsortAsc [4, 2, 1]).reverse.drop 1).take 5 ∧
    0 ∉ similar_indices [4, 2, 1] ∧
    (similar_indices [4, 2, 1]).Pairwise (fun i j => ascLe [4, 2, 1] j i) ∧
    (similar_indices [4, 2, 1]).length = min 5 ((3 : Nat) - 1) :=
  content_ranking_amended [4, 2, 1] 0 (by norm_num) (by norm_num)
    (by decide)

/-- C1: the active hybrid merge (src/src/models/recommender.py) does not
implement the claimed weighted positional scoring.  With content
output `[a, b]` and latent output `[b, a]` under the default weights the
accumulated scores are `a = 0.3·1 + 0.4·0.5 = 0.5` and
`b = 0.3·0.5 + 0.4·1 = 0.55`, so the claimed merge must return `b` before
`a` — recommend_logic.py's merge does exactly that — but the active merge
returns the dict-insertion order `[a, b]`: it normalizes the weights, never
reads them again, never scores, never sorts. -/
theorem hybrid_app_drops_weighted_ranking :
    hybridMergeApp [("a", "", []), ("b", "", [])] []
        [("b", "", []), ("a", "", [])] HYBRID_WEIGHTS 5
      = [("a", "", []), ("b", "", [])] ∧
    hybridMergeLogic [("a", ""), ("b", "")] [] [("b", ""), ("a", "")]
        HYBRID_WEIGHTS 5
      = [("b", ""), ("a", "")] := by
  exact ⟨by decide, by with_unfolding_all rfl⟩

/-- C3: the hybrid merge scaled-weights invariance — weights
`{content: 3, knn: 3, svd: 4}` produce exactly the output of the default
weights `{0.3, 0.3, 0.4}`, in the scoring merge of recommend_logic.py
because the weights are divided by their sum before use, and in the merge
of src/src/models/recommender.py because the normalized weights are never
read at all. -/
theorem hybrid_weight_scale_invariant :
    (∀ (c k s : List (String × String)) (n : Nat),
      hybridMergeLogic c k s { content := 3, knn := 3, svd := 4 } n =
        hybridMergeLogic c k s HYBRID_WEIGHTS n) ∧
    (∀ (c k s : List (String × String × List String)) (n : Nat),
      hybridMergeApp c k s { content := 3, knn := 3, svd := 4 } n =
        hybridMergeApp c k s HYBRID_WEIGHTS n) := by
  constructor
  · intro c k s n
    have hw : normalizeWeights { content := 3, knn := 3, svd := 4 } =
        normalizeWeights HYBRID_WEIGHTS := by with_unfolding_all rfl
    unfold hybridMergeLogic
    rw [hw]
  · intro c k s n
    rfl

/-- C4: the claimed graceful degradation holds only for the guard keys.
When the collaborative artifacts were not loaded (`knn_model` /
`svd_similarity` absent) both providers return `[]` without raising; but
on the loader's success path the artifacts are stored under
`movie_user_matrix` / `csr_matrix` while the providers read
`csr_out_matrix` (and `movie_index`), so with the artifacts loaded both
providers raise `KeyError 'csr_out_matrix'` for every title — an exception
escaping the core's public boundary. -/
theorem collab_key_mismatch :
    ∀ (mt : List MovieTagRow) (org : List OrgRow)
      (knn : Nat → Nat → List Nat) (svd : List (List ℚ)) (t : String),
      (recommend_knn t (load_models mt org knn svd false) = Except.ok [] ∧
       recommend_svd t (load_models mt org knn svd false) = Except.ok []) ∧
      (recommend_knn t (load_models mt org knn svd true) =
         Except.error (PyErr.keyError "csr_out_matrix") ∧
       recommend_svd t (load_models mt org knn svd true) =
         Except.error (PyErr.keyError "csr_out_matrix")) := by
  intro mt org knn svd t
  exact ⟨⟨rfl, rfl⟩, ⟨rfl, rfl⟩⟩

/-- C6: in the active hybrid merge (src/src/models/recommender.py) a title
seeded by the content provider with an empty poster is *not* filled by a
later provider offering a non-empty poster (`"m"` keeps poster `""`
although the latent provider offers `"P"`), contrary to the claim;
recommend_logic.py's merge does fill it.  The second half of the claim —
a non-empty poster is never overwritten — holds in both merges (`"Q"` is
kept). -/
theorem hybrid_app_poster_never_filled :
    hybridMergeApp [("m", "", [])] [] [("m", "P", [])] HYBRID_WEIGHTS 5
      = [("m", "", [])] ∧
    hybridMergeLogic [("m", "")] [] [("m", "P")] HYBRID_WEIGHTS 5
      = [("m", "P")] ∧
    hybridMergeApp [("m", "Q", [])] [] [("m", "P", [])] HYBRID_WEIGHTS 5
      = [("m", "Q", [])] ∧
    hybridMergeLogic [("m", "Q")] [] [("m", "P")] HYBRID_WEIGHTS 5
      = [("m", "Q")] := by
  exact ⟨by decide, by with_unfolding_all rfl, by decide,
    by with_unfolding_all rfl⟩

/-- C5: the explanation generator's output is exactly the concatenation of
its four conditional steps, in the fixed order genres, keywords/themes,
release-year era (difference at most 3 years), match score — each step
contributing one string exactly when its condition holds, and nothing else
(in particular the generic fallback contributes nothing: whenever a score
is provided the match-score step has already fired). -/
theorem explanation_step_order (sf rf : MovieFeatures) (s : Option ℚ) :
    generate_explanation sf rf s =
      (if sf.genres ≠ [] ∧ rf.genres ≠ [] ∧ pyIntersect sf.genres rf.genres ≠ [] then
        ["Similar genres: " ++
          String.intercalate ", " ((pyIntersect sf.genres rf.genres).take 2)]
      else []) ++
      (if sf.keywords ≠ [] ∧ rf.keywords ≠ [] ∧
          pyIntersect sf.keywords rf.keywords ≠ [] then
        ["Similar themes: " ++
          String.intercalate ", " ((pyIntersect sf.keywords rf.keywords).take 2)]
      else []) ++
      (if truthyYear sf.year = true ∧ truthyYear rf.year = true ∧
          ((sf.year.getD 0) - (rf.year.getD 0)).natAbs ≤ 3 then
        ["Similar era: " ++ toString (rf.year.getD 0)]
      else []) ++
      (if s ≠ none then ["Match score: " ++ fmtPercent (s.getD 0)] else []) := by
  cases s with
  | none =>
    simp [generate_explanation, truthyScore]
  | some q =>
    simp only [generate_explanation, truthyScore]
    split_ifs <;> simp_all

/-- C10: the generic fallback branch of the explanation generator is
unreachable — no string it returns begins with `"Content similarity:"` —
because a provided score always makes the match-score step append, and the
fallback additionally requires a truthy score. -/
theorem no_content_similarity_fallback (sf rf : MovieFeatures) (s : Option ℚ)
    (x : String) (hx : x ∈ generate_explanation sf rf s) :
    ¬ ("Content similarity:".data <+: x.data) := by
  have hhd : ∀ (r : List Char) (c : Char), c ≠ 'C' →
      ¬ ("Content similarity:".data <+: (c :: r)) := by
    intro r c hc hp
    rw [show "Content similarity:".data = 'C' :: "ontent similarity:".data from rfl]
      at hp
    exact hc (List.cons_prefix_cons.mp hp).1.symm
  have hmk : ∀ (m rest : String) (c : Char) (tl : List Char), m.data = c :: tl →
      c ≠ 'C' → ¬ ("Content similarity:".data <+: (m ++ rest).data) := by
    intro m rest c tl hm hc
    rw [String.data_append, hm, List.cons_append]
    exact hhd _ _ hc
  unfold generate_explanation at hx
  cases s with
  | none =>
    simp only [truthyScore, Bool.false_eq_true, and_false, if_false] at hx
    rcases List.mem_append.mp hx with hx | hx
    · rcases List.mem_append.mp hx with hx | hx
      · rcases List.mem_append.mp hx with hx | hx
        · split at hx
          · rcases List.mem_singleton.mp hx with rfl
            exact hmk _ _ 'S' _ rfl (by decide)
          · simp at hx
        · split at hx
          · rcases List.mem_singleton.mp hx with rfl
            exact hmk _ _ 'S' _ rfl (by decide)
          · simp at hx
      · split at hx
        · rcases List.mem_singleton.mp hx with rfl
          exact hmk _ _ 'S' _ rfl (by decide)
        · simp at hx
    · simp at hx
  | some q =>
    rw [if_neg (by
      intro hcon
      have := congrArg List.length hcon.1
      simp at this)] at hx
    rcases List.mem_append.mp hx with hx | hx
    · rcases List.mem_append.mp hx with hx | hx
      · rcases List.mem_append.mp hx with hx | hx
        · split at hx
          · rcases List.mem_singleton.mp hx with rfl
            exact hmk _ _ 'S' _ rfl (by decide)
          · simp at hx
        · split at hx
          · rcases List.mem_singleton.mp hx with rfl
            exact hmk _ _ 'S' _ rfl (by decide)
          · simp at hx
      · split at hx
        · rcases List.mem_singleton.mp hx with rfl
          exact hmk _ _ 'S' _ rfl (by decide)
        · simp at hx
    · rcases List.mem_singleton.mp hx with rfl
      exact hmk _ _ 'M' _ rfl (by decide)

/-- C10 witness: on empty feature sets with score 1 the generator returns
exactly `["Match score: 100%"]`, and that string does not begin with
`"Content similarity:"`. -/
theorem no_content_similarity_fallback_witness :
    "Match score: 100%" ∈
      generate_explanation ⟨[], [], none⟩ ⟨[], [], none⟩ (some 1) ∧
    ¬ ("Content similarity:".data <+: ("Match score: 100%").data) := by
  have hm : generate_explanation ⟨[], [], none⟩ ⟨[], [], none⟩ (some 1) =
      ["Match score: 100%"] := by with_unfolding_all rfl
  refine ⟨by rw [hm]; exact List.mem_singleton.mpr rfl, ?_⟩
  exact no_content_similarity_fallback ⟨[], [], none⟩ ⟨[], [], none⟩ (some 1)
    "Match score: 100%" (by rw [hm]; exact List.mem_singleton.mpr rfl)

/-- Every score row the search loop accumulates lies in `(0, 3/2]`: with
`m` of `K` keywords matching, the score is `m/K` (in `(0,1)`) unless all
matched, in which case it is `(K/K)·1.5 = 3/2` exactly. -/
theorem searchScores_mem {keywords : List (List Char)} {mt : List MovieTagRow}
    {p : Nat × ℚ} (hp : p ∈ searchScores keywords mt) :
    0 < p.2 ∧ p.2 ≤ 3/2 := by
  unfold searchScores at hp
  rcases List.mem_filterMap.mp hp with ⟨a, _, hbody⟩
  dsimp only at hbody
  set K := keywords.length with hK
  set m := keywords.countP
    (fun k => isSubstr k (a.2.tag.data.map Char.toLower)) with hm
  by_cases h0 : m > 0
  · rw [if_pos h0] at hbody
    have hinj := (Option.some.injEq _ _).mp hbody
    have hscore : p.2 = if m = K then ((m : ℚ) / K) * (3/2) else (m : ℚ) / K := by
      rw [← hinj]
    have hmK : m ≤ K := by rw [hm, hK]; exact List.countP_le_length _
    have hKpos : 0 < K := lt_of_lt_of_le h0 hmK
    have hKq : (0 : ℚ) < (K : ℚ) := by exact_mod_cast hKpos
    by_cases hEq : m = K
    · rw [hscore, if_pos hEq, hEq]
      rw [div_self (ne_of_gt hKq)]
      norm_num
    · rw [hscore, if_neg hEq]
      constructor
      · exact div_pos (by exact_mod_cast h0) hKq
      · have h1 : (m : ℚ) / K ≤ 1 := by
          rw [div_le_one hKq]
          exact_mod_cast hmK
        linarith
  · rw [if_neg h0] at hbody
    exact absurd hbody (by simp)

/-- C7: every score emitted by the search ranker lies in the half-open
interval `(0, 3/2]` (the flat 1.5 boost applies exactly when all tokens
matched, giving exactly 3/2; otherwise the score is `matches/tokens < 1`),
and the query `"Nolan thriller"` against the sole tag
`"christopher nolan thriller mastermind"` scores exactly `3/2`. -/
theorem search_score_range :
    (∀ (query : String) (models : Models) (n : Nat)
        (res : List (String × String × ℚ)),
      search_by_keywords query models n = Except.ok res →
      ∀ x ∈ res, 0 < x.2.2 ∧ x.2.2 ≤ 3/2) ∧
    search_by_keywords "Nolan thriller"
      { movies_tag :=
          some [⟨"inception", 1, "christopher nolan thriller mastermind"⟩],
        org_dataset := some [⟨1, "inception", "P", [], [], none⟩] }
      10 = Except.ok [("inception", "P", 3/2)] := by
  constructor
  · intro query models n res hres x hx
    unfold search_by_keywords at hres
    cases hmt : models.movies_tag with
    | none => rw [hmt] at hres; simp [pyGet] at hres
    | some mt =>
      rw [hmt] at hres
      cases horg : models.org_dataset with
      | none => rw [horg] at hres; simp [pyGet] at hres
      | some org =>
        rw [horg] at hres
        simp only [pyGet] at hres
        split at hres
        · injection hres with hres2
          subst hres2
          simp at hx
        · split at hres
          · injection hres with hres2
            subst hres2
            simp at hx
          · injection hres with hres2
            subst hres2
            rcases List.mem_map.mp hx with ⟨p, hp, rfl⟩
            have hp2 : p ∈ List.insertionSort pairDescLe
                (searchScores (pySplitWs (stripWs (query.data.map Char.toLower))) mt) :=
              List.mem_of_mem_take hp
            have hp3 : p ∈ searchScores
                (pySplitWs (stripWs (query.data.map Char.toLower))) mt :=
              (List.perm_insertionSort pairDescLe _).mem_iff.mp hp2
            exact searchScores_mem hp3
  · with_unfolding_all rfl

/-- C7 witness: the bounds applied to the one entry returned for
`"Nolan thriller"` against the tag `"christopher nolan thriller
mastermind"`, whose score is exactly `3/2`. -/
theorem search_score_range_witness : (0 : ℚ) < 3/2 ∧ (3/2 : ℚ) ≤ 3/2 := by
  have h := search_score_range
  exact h.1 "Nolan thriller"
    { movies_tag :=
        some [⟨"inception", 1, "christopher nolan thriller mastermind"⟩],
      org_dataset := some [⟨1, "inception", "P", [], [], none⟩] }
    10 [("inception", "P", 3/2)] h.2 ("inception", "P", 3/2)
    (List.mem_singleton.mpr rfl)

/-- The KNN resolution loop succeeds whenever every neighbor position is
inside the Movie Index, and never yields more entries than positions. -/
theorem knnLoop_ok {mi : List Int} {mid : Int} {org : List OrgRow} :
    ∀ {ps : List Nat}, (∀ p ∈ ps, p < mi.length) →
      ∃ raw, knnLoop ps mi mid org = Except.ok raw ∧ raw.length ≤ ps.length := by
  intro ps
  induction ps with
  | nil => intro _; exact ⟨[], rfl, by simp⟩
  | cons p rest ih =>
    intro hv
    obtain ⟨raw, hraw, hlen⟩ := ih (fun x hx => hv x (List.mem_cons_of_mem _ hx))
    obtain ⟨v, hv2⟩ : ∃ v, mi.get? p = some v :=
      ⟨_, List.get?_eq_get (hv p (List.mem_cons_self _ _))⟩
    unfold knnLoop
    rw [hv2]
    cases hfind : org.find? (fun r => r.id == v) with
    | none =>
      refine ⟨raw, ?_, Nat.le_succ_of_le hlen⟩
      simp only [hfind]
      exact hraw
    | some row =>
      refine ⟨(row.title, get_poster_by_id v org,
        "Collaborative filtering: Users with similar taste liked this" ::
          explain_recommendation mid v org none) :: raw, ?_, ?_⟩
      · simp only [hfind, hraw]
      · simpa using Nat.succ_le_succ hlen

/-- The SVD resolution loop succeeds whenever every row position is inside
the Movie Index, and never yields more entries than score pairs. -/
theorem svdLoop_ok {mi : List Int} {mid : Int} {org : List OrgRow} :
    ∀ {ps : List (Nat × ℚ)}, (∀ p ∈ ps, p.1 < mi.length) →
      ∃ raw, svdLoop ps mi mid org = Except.ok raw ∧ raw.length ≤ ps.length := by
  intro ps
  induction ps with
  | nil => intro _; exact ⟨[], rfl, by simp⟩
  | cons p rest ih =>
    intro hv
    obtain ⟨raw, hraw, hlen⟩ := ih (fun x hx => hv x (List.mem_cons_of_mem _ hx))
    obtain ⟨v, hv2⟩ : ∃ v, mi.get? p.1 = some v :=
      ⟨_, List.get?_eq_get (hv p (List.mem_cons_self _ _))⟩
    obtain ⟨idx, score⟩ := p
    unfold svdLoop
    rw [hv2]
    cases hfind : org.find? (fun r => r.id == v) with
    | none =>
      refine ⟨raw, ?_, Nat.le_succ_of_le hlen⟩
      simp only [hfind]
      exact hraw
    | some row =>
      refine ⟨(row.title, get_poster_by_id v org,
        "SVD analysis: Highly correlated with your preferences" ::
          explain_recommendation mid v org (some score)) :: raw, ?_, ?_⟩
      · simp only [hfind, hraw]
      · simpa using Nat.succ_le_succ hlen

/-- A position paired with its default read is an entry of `enum`. -/
theorem self_mem_enum {l : List ℚ} {i : Nat} (h : i < l.length) :
    (i, l.getD i 0) ∈ l.enum := by
  rw [List.mk_mem_enum_iff_getElem?, List.getElem?_eq_getElem h,
    List.getD_eq_getElem l 0 h]

/-- C8: with the Movie Index, catalog and collaborative artifacts all
present, the matched title in the catalog and its id in the Movie Index,
the neighbor index returning exactly `k = min(11, |Movie Index|)` distinct
valid positions with the query row first, and the latent matrix square
with the self-similarity a strict row maximum: both providers succeed,
their raw candidate lists (before the final cap, explanations already
attached) have at most 10 entries (the drop of rank 1 from `k ≤ 11`
neighbors, resp. the `[1:11]` slice), the published lists are the raw
lists capped to 5, and the query row's position is excluded from the
processed positions of both providers. -/
theorem neighbor_latent_caps
    (mt : List MovieTagRow) (org : List OrgRow) (mi : List Int)
    (knnF : Nat → Nat → List Nat) (svdM : List (List ℚ)) (t : String)
    (M : Models)
    (hM : M = ⟨some mt, some (), some org, some (), some (), some (),
      some mi, some knnF, some svdM⟩)
    (row : OrgRow)
    (hfind : org.find? (fun r => r.title == normalize_title_str t) = some row)
    (hmem : mi.contains row.id = true)
    (ids : List Nat)
    (hids : ids = knnF (mi.indexOf row.id) (min 11 mi.length))
    (hlen : ids.length = min 11 mi.length)
    (hval : ∀ p ∈ ids, p < mi.length)
    (hhead : ids.head? = some (mi.indexOf row.id))
    (hnd : ids.Nodup)
    (simRow : List ℚ)
    (hrow : svdM.get? (mi.indexOf row.id) = some simRow)
    (hsq : simRow.length = mi.length)
    (hself : mi.indexOf row.id < simRow.length)
    (hdom : ∀ p ∈ simRow.enum, p.1 ≠ mi.indexOf row.id →
      p.2 < simRow.getD (mi.indexOf row.id) 0) :
    (∃ raw, knnLoop (ids.drop 1) mi row.id org = Except.ok raw ∧
      raw.length ≤ 10 ∧
      recommend_knn t M = Except.ok (raw.take 5) ∧
      (raw.take 5).length ≤ 5 ∧
      mi.indexOf row.id ∉ ids.drop 1) ∧
    (∃ raws,
      svdLoop (((List.insertionSort pairDescLe simRow.enum).drop 1).take 10)
        mi row.id org = Except.ok raws ∧
      raws.length ≤ 10 ∧
      recommend_svd t M = Except.ok (raws.take 5) ∧
      (raws.take 5).length ≤ 5 ∧
      mi.indexOf row.id ∉
        ((((List.insertionSort pairDescLe simRow.enum).drop 1).take 10).map
          Prod.fst)) := by
  subst hM
  constructor
  · -- neighbor-based provider
    obtain ⟨raw, hraw, hlen2⟩ := @knnLoop_ok mi row.id org (ids.drop 1)
      (fun p hp => hval p (List.mem_of_mem_drop hp))
    have h11 : min 11 mi.length ≤ 11 := Nat.min_le_left _ _
    have hraw10 : raw.length ≤ 10 := by
      rw [List.length_drop, hlen] at hlen2
      omega
    have hexcl : mi.indexOf row.id ∉ ids.drop 1 := by
      cases hid2 : ids with
      | nil => simp [hid2] at hhead
      | cons a tl =>
        rw [hid2] at hhead
        simp only [List.head?_cons, Option.some.injEq] at hhead
        rw [List.drop_one, List.tail_cons, ← hhead]
        rw [hid2] at hnd
        exact (List.nodup_cons.mp hnd).1
    refine ⟨raw, hraw, hraw10, ?_, ?_, hexcl⟩
    · unfold recommend_knn
      simp only [pyGet, Option.isNone_some, Bool.false_eq_true, if_false,
        hfind, hmem, not_true, eq_self_iff_true]
      rw [← hids]
      rw [List.drop_one] at hraw
      simp [hraw]
    · exact le_trans (List.length_take_le _ _) (by norm_num)
  · -- latent-similarity provider
    set midx := mi.indexOf row.id with hmidx
    set S := List.insertionSort pairDescLe simRow.enum with hS
    set a : Nat × ℚ := (midx, simRow.getD midx 0) with ha
    have hperm := List.perm_insertionSort pairDescLe simRow.enum
    have hamem : a ∈ S := hperm.mem_iff.mpr (self_mem_enum hself)
    have hnd2 : simRow.enum.Nodup := by
      refine List.Nodup.of_map Prod.fst ?_
      rw [List.enum_map_fst]
      exact List.nodup_range _
    have hSnd : S.Nodup := hperm.nodup_iff.mpr hnd2
    have hSp : S.Pairwise pairDescLe := List.sorted_insertionSort _ _
    have hdom2 : ∀ b ∈ S, b ≠ a → ¬ pairDescLe b a := by
      intro b hb hba hle
      have hbe : b ∈ simRow.enum := hperm.mem_iff.mp hb
      have hle2 : a.2 < b.2 ∨ (b.2 = a.2 ∧ b.1 ≤ a.1) := hle
      have ha2 : a.2 = simRow.getD midx 0 := rfl
      by_cases hbi : b.1 = midx
      · have hb2 : simRow[b.1]? = some b.2 := by
          obtain ⟨b1, b2⟩ := b
          exact List.mk_mem_enum_iff_getElem?.mp hbe
        rw [hbi, List.getElem?_eq_getElem hself] at hb2
        have hb3 : b.2 = simRow.getD midx 0 := by
          rw [List.getD_eq_getElem simRow 0 hself]
          exact ((Option.some.injEq _ _).mp hb2).symm
        apply hba
        have hbeta : b = (b.1, b.2) := rfl
        rw [hbeta, hbi, hb3]
      · have hlt := hdom b hbe hbi
        rcases hle2 with h | ⟨h, _⟩
        · rw [ha2] at h
          exact absurd (h.trans hlt) (lt_irrefl _)
        · rw [ha2] at h
          rw [h] at hlt
          exact absurd hlt (lt_irrefl _)
    have hheadS : S.head? = some a := head_of_sorted_dom hSp hSnd hamem hdom2
    obtain ⟨rest, hrest⟩ : ∃ rest, S = a :: rest := by
      cases hs2 : S with
      | nil => rw [hs2] at hheadS; simp at hheadS
      | cons x tl =>
        rw [hs2] at hheadS
        simp only [List.head?_cons, Option.some.injEq] at hheadS
        exact ⟨tl, by rw [hheadS]⟩
    have hvalid : ∀ p ∈ (S.drop 1).take 10, p.1 < mi.length := by
      intro p hp
      have hp2 : p ∈ S := List.mem_of_mem_drop (List.mem_of_mem_take hp)
      have := List.fst_lt_of_mem_enum (hperm.mem_iff.mp hp2)
      omega
    obtain ⟨raws, hraws, hrawslen⟩ :=
      @svdLoop_ok mi row.id org ((S.drop 1).take 10) hvalid
    have hraws10 : raws.length ≤ 10 :=
      le_trans hrawslen (le_trans (List.length_take_le _ _) (le_refl _))
    have hexcl2 : midx ∉ ((S.drop 1).take 10).map Prod.fst := by
      have hfstnd : (S.map Prod.fst).Nodup := by
        have : List.Perm (S.map Prod.fst) (simRow.enum.map Prod.fst) :=
          hperm.map _
        rw [List.enum_map_fst] at this
        exact this.nodup_iff.mpr (List.nodup_range _)
      rw [hrest, List.map_cons] at hfstnd
      have hnotin : midx ∉ rest.map Prod.fst := (List.nodup_cons.mp hfstnd).1
      intro hcon
      rcases List.mem_map.mp hcon with ⟨b, hb, hfst⟩
      refine hnotin (List.mem_map.mpr ⟨b, ?_, hfst⟩)
      rw [hrest, List.drop_one, List.tail_cons] at hb
      exact List.mem_of_mem_take hb
    refine ⟨raws, hraws, hraws10, ?_, ?_, hexcl2⟩
    · unfold recommend_svd
      simp only [pyGet, Option.isNone_some, Bool.false_eq_true, if_false,
        hfind, hmem, hrow, not_true, eq_self_iff_true]
      rw [List.drop_one] at hraws
      simp [← hS, hraws]
    · exact le_trans (List.length_take_le _ _) (by norm_num)

/-- C8 witness: the caps and exclusions instantiated on a three-movie
Movie Index `[100, 200, 300]`, a neighbor index answering `[0, 1, 2]`
(query row 0 first), and a latent matrix with dominant diagonal. -/
theorem neighbor_latent_caps_witness :
    (∃ raw, knnLoop ([0, 1, 2].drop 1) [100, 200, 300] 100
        [⟨100, "q", "", [], [], none⟩, ⟨200, "x", "", [], [], none⟩,
          ⟨300, "y", "", [], [], none⟩] = Except.ok raw ∧
      raw.length ≤ 10 ∧
      recommend_knn "q" ⟨some [], some (),
        some [⟨100, "q", "", [], [], none⟩, ⟨200, "x", "", [], [], none⟩,
          ⟨300, "y", "", [], [], none⟩],
        some (), some (), some (), some [100, 200, 300],
        some (fun _ _ => [0, 1, 2]),
        some [[9, 5, 3], [5, 9, 4], [3, 4, 9]]⟩ = Except.ok (raw.take 5) ∧
      (raw.take 5).length ≤ 5 ∧
      (0 : Nat) ∉ [0, 1, 2].drop 1) ∧
    (∃ raws,
      svdLoop
        (((List.insertionSort pairDescLe ([9, 5, 3] : List ℚ).enum).drop 1).take 10)
        [100, 200, 300] 100
        [⟨100, "q", "", [], [], none⟩, ⟨200, "x", "", [], [], none⟩,
          ⟨300, "y", "", [], [], none⟩] = Except.ok raws ∧
      raws.length ≤ 10 ∧
      recommend_svd "q" ⟨some [], some (),
        some [⟨100, "q", "", [], [], none⟩, ⟨200, "x", "", [], [], none⟩,
          ⟨300, "y", "", [], [], none⟩],
        some (), some (), some (), some [100, 200, 300],
        some (fun _ _ => [0, 1, 2]),
        some [[9, 5, 3], [5, 9, 4], [3, 4, 9]]⟩ = Except.ok (raws.take 5) ∧
      (raws.take 5).length ≤ 5 ∧
      (0 : Nat) ∉
        ((((List.insertionSort pairDescLe ([9, 5, 3] : List ℚ).enum).drop 1).take 10).map
          Prod.fst)) :=
  neighbor_latent_caps []
    [⟨100, "q", "", [], [], none⟩, ⟨200, "x", "", [], [], none⟩,
      ⟨300, "y", "", [], [], none⟩]
    [100, 200, 300] (fun _ _ => [0, 1, 2]) [[9, 5, 3], [5, 9, 4], [3, 4, 9]]
    "q" _ rfl ⟨100, "q", "", [], [], none⟩ (by decide) (by decide)
    [0, 1, 2] (by decide) (by decide) (by decide) (by decide) (by decide)
    [9, 5, 3] (by decide) (by decide) (by decide) (by decide)

end MovieRec
